import Mathlib

/-!
Verification of the rss_digest pipeline (src/services/digest_service.py,
src/utils/ai_utils.py, src/utils/telegram_utils.py) via a shallow embedding.
Python strings are modelled as lists of characters (`Str`); external effects
(the text-generation service, the chat transport, the clock) are oracles
passed in explicitly; the two persisted files are explicit state.
-/

namespace RSSDigest

/-- Python `str` modelled as a list of characters. -/
abbrev Str := List Char

/-- Python `s.strip()`: drop whitespace from both ends. -/
def pyStrip (s : Str) : Str :=
  ((s.dropWhile Char.isWhitespace).reverse.dropWhile Char.isWhitespace).reverse

/-- Decimal digit string of a natural number, as Python `str(n)` (chars, most
significant first). -/
def natStr (n : Nat) : Str := Nat.toDigits 10 n

/-- Number of decimal digits in `n`, i.e. `len(str(n))` for `n ≥ 0`. -/
def numDigits (n : Nat) : Nat :=
  if n < 10 then 1 else numDigits (n / 10) + 1
  decreasing_by exact Nat.div_lt_self (by omega) (by omega)

/-- `int(str(eid)[:10])` for a nonnegative id: keeping the first 10 decimal
digits of `eid` is arithmetic truncation by `10 ^ (numDigits eid - 10)`. -/
def pyFirstTen (eid : Nat) : Nat := eid / 10 ^ (numDigits eid - 10)

/-- `digest_service._update_processed_ids`, with the clock (`now`, Unix
seconds) and the current file contents (`existing`) made explicit.
`set(existing) | set(entry_ids)` is modelled as `dedup` of the append;
set-iteration order is abstracted (theorems speak of membership). -/
def update_processed_ids (now : Nat) (existing entry_ids : List Nat) : List Nat :=
  let all_ids_set := (existing ++ entry_ids).dedup
  let cutoff_ts := now - 48 * 3600
  all_ids_set.filter (fun eid => cutoff_ts ≤ pyFirstTen eid)

/-- `DIGEST_HISTORY_LIMIT` from digest_service. -/
def DIGEST_HISTORY_LIMIT : Nat := 10

/-- `digest_service._save_digest_to_history`, with the current file contents
made explicit: insert at the front, keep the first `DIGEST_HISTORY_LIMIT`. -/
def save_digest_to_history (digest : Str) (history : List Str) : List Str :=
  (digest :: history).take DIGEST_HISTORY_LIMIT

/-! ## Stage 1: concurrent per-article summarization (ai_utils.py) -/

/-- One RSS entry as consumed by the pipeline (fields used by the code). -/
structure Entry where
  id : Nat
  title : Str
  feed_name : Str
  link : Str
  content : Str
deriving DecidableEq

/-- An oracle for the text-generation service inside the Stage-1 worker:
given the 1-based item index and the attempt number, the response content
(`none` models an exception raised by the call, `some s` the returned text,
already including the `or ""` null-coalescing of the source). -/
abbrev Stage1Oracle := Nat → Nat → Option Str

/-- Outcome of one attempt in `worker`: the call must not raise and the
stripped content must be nonempty, in which case the stripped content is the
summary; an empty/blank response raises `RuntimeError("empty summary")`,
folded into the `none` outcome here. -/
def attemptResult (r : Option Str) : Option Str :=
  match r with
  | none => none
  | some s => if pyStrip s = [] then none else some (pyStrip s)

/-- The summary produced by `worker`'s retry loop (`max_attempts = 2`):
attempt 1; on failure attempt 2; on a second failure give up with `""`. -/
def workerSummary (a1 a2 : Option Str) : Str :=
  match attemptResult a1 with
  | some s => s
  | none =>
    match attemptResult a2 with
    | some s => s
    | none => []

/-- The block built for article `i` in `summarize_articles`'s collection loop:
`--- ARTICLE i START ---`, the `[来源:..] [链接:..] [标题:..]` header, the
bullet summary (possibly empty), and the end marker. -/
def articleBlock (i : Nat) (e : Entry) (o : Stage1Oracle) : Str :=
  let per_article := workerSummary (o i 1) (o i 2)
  let header :=
    "[来源:".toList ++ e.feed_name ++ "] [链接:".toList ++ e.link
      ++ "] [标题:".toList ++ e.title ++ "]".toList
  "--- ARTICLE ".toList ++ natStr i ++ " START ---\n".toList
    ++ header ++ "\n要点:\n".toList ++ per_article
    ++ "\n--- ARTICLE ".toList ++ natStr i ++ " END ---".toList

/-- The fan-in of `summarize_articles`: a pre-sized slot array
(`results = [None] * len(entries)`) filled as futures complete, each result
written at `original_index - 1`. `order` is the completion order delivered by
`as_completed` — in any real run a permutation of `1..n`; indices outside
that range are ignored so the model is total. -/
def fillStep (entries : List Entry) (o : Stage1Oracle)
    (acc : List (Option Str)) (i : Nat) : List (Option Str) :=
  if 1 ≤ i then
    match entries[i - 1]? with
    | some e => acc.set (i - 1) (some (articleBlock i e o))
    | none => acc
  else acc

def fillResults (entries : List Entry) (o : Stage1Oracle) (order : List Nat) :
    List (Option Str) :=
  order.foldl (fillStep entries o) (List.replicate entries.length none)

/-- `AIProcessor.summarize_articles` with the completion order of the worker
futures explicit: empty input yields `""`; otherwise the non-`None` slots are
joined with a blank line. -/
def summarize_articles (entries : List Entry) (o : Stage1Oracle)
    (order : List Nat) : Str :=
  if entries = [] then []
  else List.intercalate "\n\n".toList ((fillResults entries o order).filterMap id)

/-- The completion order `order` covers every future index `1..n`. Each
`as_completed` run yields each future exactly once, so every real order
satisfies this. -/
def covers (order : List Nat) (n : Nat) : Prop :=
  ∀ i ∈ List.range' 1 n, i ∈ order

/-- The order-independent merged Stage-1 text: article blocks in original
input order (`enumerate(entries, start=1)`). -/
def summarizeCanonical (entries : List Entry) (o : Stage1Oracle) : Str :=
  List.intercalate "\n\n".toList
    (entries.enum.map (fun p => articleBlock (p.1 + 1) p.2 o))

/-! ## Stage 2 and the orchestrator (digest_service.py) -/

/-- `AIProcessor.finalize_digest_from_article_summaries`. The prompt (which
embeds `digest_history`) only influences the service response, abstracted as
`resp` (`none` = the call raised; `some c` = the returned content after the
`or ""` coalescing). The result is the stripped content, `""` on failure. -/
def finalize_digest_from_article_summaries (merged_summaries : Str)
    (digest_history : List Str) (resp : Option Str) : Str :=
  if merged_summaries = [] ∨ pyStrip merged_summaries = [] then []
  else
    match resp with
    | none => []
    | some c => pyStrip c

def failGenStage1 : Str :=
  "Failed to generate digest: Stage1 produced no summaries.".toList

def failGenStage2 : Str :=
  "Failed to generate digest: Stage2 returned empty content.".toList

def failGenEmpty : Str :=
  "Failed to generate digest: AI returned empty content.".toList

/-- All text-generation service behavior observed during one call of
`generate_digest`: the per-item Stage-1 responses, the completion order of
the Stage-1 futures, the Stage-2 response, and the formatted current
datetime used in the title. -/
structure GenOracle where
  stage1 : Stage1Oracle
  order : List Nat
  stage2 : Option Str
  dt : Str

/-- `digest_service.generate_digest`: stage 1, emptiness check, stage 2 (with
the loaded digest history), two further emptiness checks, then the title
prefix `"# RSS 新闻摘要 - <datetime>"` plus a blank line plus the digest body. -/
def generate_digest (entries : List Entry) (digest_history : List Str)
    (g : GenOracle) : Str :=
  let merged_summaries := summarize_articles entries g.stage1 g.order
  if merged_summaries = [] ∨ pyStrip merged_summaries = [] then failGenStage1
  else
    let ai := finalize_digest_from_article_summaries merged_summaries
      digest_history g.stage2
    if ai = [] ∨ pyStrip ai = [] then failGenStage2
    else if ai = [] ∨ (pyStrip ai).length = 0 then failGenEmpty
    else "# RSS 新闻摘要 - ".toList ++ g.dt ++ "\n\n".toList ++ ai

/-- The hardcoded failure-indicator substrings of `run_digest_process`. -/
def failureIndicators : List Str :=
  ["Failed to generate digest".toList, "无法生成摘要".toList]

/-- Python's substring test `pat in s` on our character-list strings. -/
def strIn (pat : Str) (s : Str) : Bool :=
  pat.isPrefixOf s ||
    match s with
    | [] => false
    | _ :: rest => strIn pat rest

/-- `any(ind in digest for ind in [...])`. -/
def containsIndicator (digest : Str) : Bool :=
  failureIndicators.any (fun ind => strIn ind digest)

/-- The in-loop validity gate:
`digest and digest.strip() and not any(ind in digest for ...)`. -/
def loopValid (digest : Str) : Bool :=
  !digest.isEmpty && !(pyStrip digest).isEmpty && !containsIndicator digest

/-- The two persisted files owned by the orchestrator. -/
structure FileState where
  processed_ids : List Nat
  digest_history : List Str
deriving DecidableEq

/-- One run's environment: the filtered entries returned by
`get_recent_entries`, one generation oracle per attempt of the retry loop,
the success bit of `send_digest` for the digest message, the clock, and the
lookback window. -/
structure RunEnv where
  entries : List Entry
  g1 : GenOracle
  g2 : GenOracle
  sendOk : Bool
  now : Nat
  hours_back : Nat

/-- Observable outcome of `run_digest_process`: return value, resulting file
state, and the texts handed to the Telegram sender, in order. -/
structure RunOut where
  ret : Str
  files : FileState
  sent : List Str
deriving DecidableEq

/-- `f"Digest generation failed after {max_attempts} attempts. Error: {error_message}"`
with `max_attempts = 2`. -/
def digestFailedNotice (error_message : Str) : Str :=
  "Digest generation failed after 2 attempts. Error: ".toList ++ error_message

/-- The success path after the final check of `run_digest_process`: update
the processed-ids file, then — when sending — send the digest and append it
to the history file only if that send succeeded. -/
def commitPhase (env : RunEnv) (send : Bool) (st : FileState) (digest : Str) :
    RunOut :=
  let current_entry_ids := env.entries.map (fun e => e.id)
  let processed := update_processed_ids env.now st.processed_ids current_entry_ids
  if send then
    if env.sendOk then
      { ret := digest,
        files := ⟨processed, save_digest_to_history digest st.digest_history⟩,
        sent := [digest] }
    else
      { ret := digest, files := ⟨processed, st.digest_history⟩, sent := [digest] }
  else
    { ret := digest, files := ⟨processed, st.digest_history⟩, sent := [] }

/-- The code after the retry loop of `run_digest_process`: the final check
`if not digest or any(ind in digest ...)` leads either to the failure exit
(files untouched, best-effort error notice when sending) or to the commit
path. -/
def finalPhase (env : RunEnv) (send : Bool) (st : FileState)
    (digest error_message : Str) : RunOut :=
  if digest.isEmpty || containsIndicator digest then
    { ret := digest, files := st,
      sent := if send then [digestFailedNotice error_message] else [] }
  else commitPhase env send st digest

/-- `digest_service.run_digest_process` with `max_attempts = 2` unrolled:
empty entry list exits early; otherwise attempt 1, on loop-invalidity
attempt 2 (keeping `error_message` from the last failed attempt), then the
final check and commit/failure phases. -/
def run_digest_process (env : RunEnv) (send : Bool) (st : FileState) : RunOut :=
  if env.entries.isEmpty then
    { ret := "No new entries found in the past ".toList ++ natStr env.hours_back
        ++ " hours (after filtering processed IDs).".toList,
      files := st, sent := [] }
  else
    let d1 := generate_digest env.entries st.digest_history env.g1
    if loopValid d1 then finalPhase env send st d1 []
    else
      let e1 := if d1.isEmpty then "Empty digest".toList else d1
      let d2 := generate_digest env.entries st.digest_history env.g2
      if loopValid d2 then finalPhase env send st d2 e1
      else finalPhase env send st d2 (if d2.isEmpty then "Empty digest".toList else d2)

/-! ## Chunked delivery (telegram_utils.py, `_send_long_message`) -/

/-- Telegram's hard per-message limit. -/
def TELEGRAM_LIMIT : Nat := 4096

/-- Accumulator-based model of `re.split(r'(\n\n|\n)', text)`: the returned
parts alternate text pieces and captured delimiters (`"\n\n"` preferred over
`"\n"`, leftmost-first), and concatenate back to the input. -/
def splitNLAux (acc : Str) (s : Str) : List Str :=
  match s with
  | [] => [acc.reverse]
  | '\n' :: '\n' :: rest => acc.reverse :: ['\n', '\n'] :: splitNLAux [] rest
  | '\n' :: rest => acc.reverse :: ['\n'] :: splitNLAux [] rest
  | c :: rest => splitNLAux (c :: acc) rest

def splitNL (s : Str) : List Str := splitNLAux [] s

/-- `for i in range(0, len(part), 4096): chunks.append(part[i:i+4096])`. -/
def forceSplit (part : Str) : List Str :=
  if h : part = [] then []
  else part.take TELEGRAM_LIMIT :: forceSplit (part.drop TELEGRAM_LIMIT)
termination_by part.length
decreasing_by
  have hp : 0 < part.length := List.length_pos.2 h
  simp only [List.length_drop, TELEGRAM_LIMIT]
  omega

/-- One iteration of the accumulation loop of `_send_long_message` over
`potential_splits`, state = (chunks so far, running `temp_chunk`). -/
def chunkStep (st : List Str × Str) (part : Str) : List Str × Str :=
  if st.2.length + part.length ≤ TELEGRAM_LIMIT then (st.1, st.2 ++ part)
  else
    let chunks1 := if st.2.isEmpty then st.1 else st.1 ++ [st.2]
    if TELEGRAM_LIMIT < part.length then (chunks1 ++ forceSplit part, [])
    else (chunks1, part)

/-- The chunk list built by `_send_long_message` before sending. -/
def buildChunks (processed_text : Str) : List Str :=
  let r := (splitNL processed_text).foldl chunkStep ([], [])
  if r.2.isEmpty then r.1 else r.1 ++ [r.2]

/-- The send loop of `_send_long_message`: `ok i` is the transport's success
bit for a send at enumerate-position `i`; blank chunks are skipped (their
position still advances); the loop stops at the first failed send. Returns
the positions actually sent and `last_response` (`none` when nothing was
sent). -/
def sendLoop (ok : Nat → Bool) (i : Nat) (last : Option Bool) :
    List Str → List Nat × Option Bool
  | [] => ([], last)
  | c :: rest =>
    if (pyStrip c).isEmpty then sendLoop ok (i + 1) last rest
    else if ok i then
      let r := sendLoop ok (i + 1) (some true) rest
      (i :: r.1, r.2)
    else ([i], some false)

/-- `TelegramSender._send_long_message` (the transport abstracted by `ok`):
split, send sequentially, abort on first failure; a `None` last response
becomes the `"No content chunks were sent"` failure. Returns (positions
sent, overall success). -/
def send_long_message (ok : Nat → Bool) (processed_text : Str) :
    List Nat × Bool :=
  let r := sendLoop ok 0 none (buildChunks processed_text)
  (r.1, r.2.getD false)

/-! ## Markup escaper (telegram_utils.py) -/

/-- The MarkdownV2 reserved set of `escape_chars_pattern`:
`_ * [ ] ( ) ~ ` (backquote, written via its code point) `> # + - = | { } . !`. -/
def escapeChars : List Char :=
  ['_', '*', '[', ']', '(', ')', '~', Char.ofNat 96, '>', '#', '+', '=', '|',
   '{', '}', '.', '!', '-']

/-- `re.sub(escape_chars_pattern, r'\\\1', s)`: prefix every reserved
character with a backslash. -/
def escapeAll (s : Str) : Str :=
  s.flatMap (fun c => if escapeChars.contains c then ['\\', c] else [c])

/-- The `\x00BOLD{i}\x00` placeholder. -/
def placeholderBold (k : Nat) : Str :=
  '\x00' :: "BOLD".toList ++ natStr k ++ ['\x00']

/-- The `\x00LINK{i}\x00` placeholder. -/
def placeholderLink (k : Nat) : Str :=
  '\x00' :: "LINK".toList ++ natStr k ++ ['\x00']

/-- Attempt of `\*\*([^*]+)\*\*` immediately after an opening `**`: the
greedy nonempty run of non-asterisk characters must be followed by `**`. -/
def tryBoldContent (t : Str) : Option (Str × Str) :=
  let content := t.takeWhile (fun c => c ≠ '*')
  let after := t.drop content.length
  if content ≠ [] ∧ after.take 2 = ['*', '*'] then some (content, after.drop 2)
  else none

/-- `re.sub(r'\*\*([^*]+)\*\*', ...)` in `_convert_markdown_bold_to_telegram`:
leftmost-first scan, replacing each match with its numbered placeholder and
collecting the contents; on a failed match at `**` the scan advances one
character, like the regex engine. -/
def subBoldAux (s : Str) (k : Nat) : Str × List Str :=
  match s with
  | [] => ([], [])
  | '*' :: '*' :: t =>
    match h : tryBoldContent t with
    | some ca =>
      let r := subBoldAux ca.2 (k + 1)
      (placeholderBold k ++ r.1, ca.1 :: r.2)
    | none =>
      let r := subBoldAux ('*' :: t) k
      ('*' :: r.1, r.2)
  | c :: rest =>
    let r := subBoldAux rest k
    (c :: r.1, r.2)
termination_by s.length
decreasing_by
  · have hlen : ca.2.length ≤ t.length := by
      simp only [tryBoldContent] at h
      split at h
      · cases h
        simp only [List.length_drop]
        omega
      · cases h
    simp only [List.length_cons]
    omega
  · simp only [List.length_cons]; omega
  · simp only [List.length_cons]; omega

/-- URL part of the link regex, `[^()]*(?:\([^()]*\)[^()]*)*` followed by the
closing `\)`: scan at depth 0 (`depth = false`) or inside a single-level
parenthesis group (`depth = true`); the first bare `)` at depth 0 closes the
match. Returns the URL and the remaining text. -/
def urlScanAux (s : Str) (depth : Bool) : Option (Str × Str) :=
  match s with
  | [] => none
  | c :: rest =>
    if c = ')' then
      if depth then (urlScanAux rest false).map (fun r => (')' :: r.1, r.2))
      else some ([], rest)
    else if c = '(' then
      if depth then none
      else (urlScanAux rest true).map (fun r => ('(' :: r.1, r.2))
    else (urlScanAux rest depth).map (fun r => (c :: r.1, r.2))

/-- Attempt of `\[([^\]]+)\]\((url)\)` immediately after an opening `[`:
greedy nonempty run of non-`]` characters, then `](`, then the URL scan.
Returns (display text, url, remaining text). -/
def tryLinkAt (t : Str) : Option (Str × Str × Str) :=
  let display := t.takeWhile (fun c => c ≠ ']')
  if display = [] then none
  else
    match t.drop display.length with
    | ']' :: '(' :: u => (urlScanAux u false).map (fun r => (display, r.1, r.2))
    | _ => none

/-- `urlScanAux` consumes at least the closing parenthesis. -/
theorem urlScanAux_length {s : Str} {depth : Bool} {r : Str × Str}
    (h : urlScanAux s depth = some r) : r.2.length < s.length := by
  induction s generalizing depth r with
  | nil => simp [urlScanAux] at h
  | cons c rest ih =>
    simp only [urlScanAux] at h
    split at h
    · split at h
      · match hr : urlScanAux rest false with
        | none => rw [hr] at h; cases h
        | some r0 =>
          rw [hr] at h
          cases h
          have := ih hr
          simp only [List.length_cons]
          omega
      · cases h
        simp
    · split at h
      · split at h
        · cases h
        · match hr : urlScanAux rest true with
          | none => rw [hr] at h; cases h
          | some r0 =>
            rw [hr] at h
            cases h
            have := ih hr
            simp only [List.length_cons]
            omega
      · match hr : urlScanAux rest depth with
        | none => rw [hr] at h; cases h
        | some r0 =>
          rw [hr] at h
          cases h
          have := ih hr
          simp only [List.length_cons]
          omega

/-- A successful link attempt consumes at least one character of `t`. -/
theorem tryLinkAt_length {t : Str} {r : Str × Str × Str}
    (h : tryLinkAt t = some r) : r.2.2.length < t.length := by
  simp only [tryLinkAt] at h
  split at h
  · cases h
  · rename_i hd
    split at h
    case _ u heq =>
      match hu : urlScanAux u false with
      | none => rw [hu] at h; cases h
      | some r0 =>
        rw [hu] at h
        cases h
        have h1 := urlScanAux_length hu
        have h2 : u.length + 2 ≤ t.length := by
          have := congrArg List.length heq
          simp only [List.length_drop, List.length_cons] at this
          have hle : ∀ tt : Str,
              (tt.takeWhile (fun c => c ≠ ']')).length ≤ tt.length := by
            intro tt
            induction tt with
            | nil => simp
            | cons a tt ih =>
              rw [List.takeWhile_cons]
              split
              · simpa using ih
              · simp
          have hle := hle t
          omega
        simp only []
        omega
    · cases h

/-- `re.sub` of the link pattern in `_convert_markdown_links_to_telegram`:
leftmost-first scan, numbered placeholders, collected (display, url) pairs;
advance one character on a failed match at `[`. -/
def subLinksAux (s : Str) (k : Nat) : Str × List (Str × Str) :=
  match s with
  | [] => ([], [])
  | '[' :: t =>
    match h : tryLinkAt t with
    | some dur =>
      let r := subLinksAux dur.2.2 (k + 1)
      (placeholderLink k ++ r.1, (dur.1, dur.2.1) :: r.2)
    | none =>
      let r := subLinksAux t k
      ('[' :: r.1, r.2)
  | c :: rest =>
    let r := subLinksAux rest k
    (c :: r.1, r.2)
termination_by s.length
decreasing_by
  · have := tryLinkAt_length h
    simp only [List.length_cons]
    omega
  · simp only [List.length_cons]; omega
  · simp only [List.length_cons]; omega

/-- Python `s.replace(pat, repl)` (all occurrences, leftmost first). The
empty-pattern case never arises here; it is mapped to the identity. -/
def replaceAll (pat repl s : Str) : Str :=
  match pat, s with
  | [], _ => s
  | _ :: _, [] => []
  | p :: ps, c :: rest =>
    if (p :: ps).isPrefixOf (c :: rest) then
      repl ++ replaceAll (p :: ps) repl ((c :: rest).drop (p :: ps).length)
    else c :: replaceAll (p :: ps) repl rest
termination_by s.length
decreasing_by
  · simp only [List.length_drop, List.length_cons]
    omega
  · simp only [List.length_cons]; omega

/-- The bold restore loop: `escaped_text.replace(f"\x00BOLD{i}\x00",
f"*{escaped_content}*")` for each collected segment. -/
def restoreBold (s : Str) (segs : List Str) (i : Nat) : Str :=
  match segs with
  | [] => s
  | content :: rest =>
    restoreBold
      (replaceAll (placeholderBold i) ('*' :: escapeAll content ++ ['*']) s)
      rest (i + 1)

/-- `url.replace('\\', '\\\\').replace(')', '\\)')`. -/
def escapeURL (url : Str) : Str :=
  replaceAll [')'] ['\\', ')'] (replaceAll ['\\'] ['\\', '\\'] url)

/-- The link restore loop: placeholder `i` becomes
`[escaped_display](escaped_url)`. -/
def restoreLinks (s : Str) (links : List (Str × Str)) (i : Nat) : Str :=
  match links with
  | [] => s
  | dl :: rest =>
    restoreLinks
      (replaceAll (placeholderLink i)
        ('[' :: escapeAll dl.1 ++ [']', '('] ++ escapeURL dl.2 ++ [')']) s)
      rest (i + 1)

/-- `telegram_utils._escape_markdown_v2_content`: extract links, then bold
spans, escape the remainder, then restore bold spans and links. -/
def escape_markdown_v2_content (text : Str) : Str :=
  let l := subLinksAux text 0
  let b := subBoldAux l.1 0
  restoreLinks (restoreBold (escapeAll b.1) b.2 0) l.2 0

/-- One line of `_process_markdown_structure_and_escape`'s loop body. -/
def processLine (line : Str) : Str :=
  let stripped_line := pyStrip line
  if "# ".toList.isPrefixOf stripped_line then
    '*' :: (escape_markdown_v2_content (stripped_line.drop 2) ++ ['*'])
  else if "## ".toList.isPrefixOf stripped_line then
    '*' :: (escape_markdown_v2_content (stripped_line.drop 3) ++ ['*'])
  else if "- ".toList.isPrefixOf stripped_line then
    '\\' :: '-' :: ' ' :: escape_markdown_v2_content (stripped_line.drop 2)
  else if stripped_line ≠ [] then escape_markdown_v2_content stripped_line
  else []

/-- `telegram_utils._process_markdown_structure_and_escape`:
`text.strip().split('\n')`, the per-line case split, then `'\n'.join`. -/
def process_markdown_structure_and_escape (text : Str) : Str :=
  List.intercalate ['\n'] (((pyStrip text).splitOn '\n').map processLine)

/-- Membership in the single-level balanced-parentheses URL language
`[^()]*(?:\([^()]*\)[^()]*)*` (`depth` as in `urlScanAux`). Used to state
which URLs the link pattern tolerates. -/
def urlOK (s : Str) (depth : Bool) : Bool :=
  match s with
  | [] => !depth
  | c :: rest =>
    if c = ')' then (if depth then urlOK rest false else false)
    else if c = '(' then (if depth then false else urlOK rest true)
    else urlOK rest depth

/-! ### Concrete fixtures used by the witness theorems -/

def entryA : Entry :=
  ⟨1760000000001, "T1".toList, "S1".toList, "L1".toList, "body one".toList⟩

def entryB : Entry :=
  ⟨1760000000002, "T2".toList, "S2".toList, "L2".toList, "body two".toList⟩

/-- A Stage-1 service that always answers with a non-blank summary. -/
def oracleGood : Stage1Oracle := fun _ _ => some "Point.".toList

/-- A Stage-1 service whose first attempt raises and second succeeds. -/
def oracleRetry : Stage1Oracle :=
  fun _ attempt => if attempt = 1 then none else some "Late point.".toList

def genGood : GenOracle :=
  ⟨oracleGood, [1], some "Digest body".toList, "2025/10/12 08:00".toList⟩

def genBad : GenOracle :=
  ⟨oracleGood, [1], none, "2025/10/12 08:00".toList⟩

def stW : FileState := ⟨[1760000000009], ["old digest".toList]⟩

def envC1 : RunEnv := ⟨[entryA], genBad, genBad, true, 1760200000, 12⟩

def envC2 : RunEnv := ⟨[entryA], genGood, genBad, true, 1760200000, 12⟩

/-! ## Helper lemmas -/

/-- Membership in the rewritten processed-ids file. -/
theorem mem_update_processed_ids {now : Nat} {existing entry_ids : List Nat}
    {eid : Nat} :
    eid ∈ update_processed_ids now existing entry_ids ↔
      (eid ∈ existing ∨ eid ∈ entry_ids) ∧ now - 48 * 3600 ≤ pyFirstTen eid := by
  simp [update_processed_ids, List.mem_filter, List.mem_dedup, List.mem_append]

/-- A number with at most `k` decimal digits is below `10 ^ k`. -/
theorem lt_pow_of_numDigits_le :
    ∀ n k : Nat, numDigits n ≤ k → n < 10 ^ k := by
  intro n
  induction n using Nat.strong_induction_on with
  | _ n ih =>
    intro k hk
    rw [numDigits] at hk
    split at hk
    · calc n < 10 := by assumption
        _ = 10 ^ 1 := (pow_one 10).symm
        _ ≤ 10 ^ k := Nat.pow_le_pow_right (by omega) (by omega)
    · have h10 : ¬ n < 10 := by assumption
      have hdiv : n / 10 < n := Nat.div_lt_self (by omega) (by omega)
      have hk1 : numDigits (n / 10) ≤ k - 1 := by omega
      have := ih (n / 10) hdiv (k - 1) hk1
      have hn : n < 10 ^ (k - 1) * 10 := by
        have := Nat.lt_succ_of_le (Nat.div_mul_le_self n 10)
        have hmod : n = 10 * (n / 10) + n % 10 := (Nat.div_add_mod n 10).symm
        have hm : n % 10 < 10 := Nat.mod_lt _ (by omega)
        omega
      calc n < 10 ^ (k - 1) * 10 := hn
        _ = 10 ^ (k - 1 + 1) := by ring
        _ ≤ 10 ^ k := Nat.pow_le_pow_right (by omega) (by omega)

/-- Ids with fewer than 10 decimal digits are their own 10-digit prefix. -/
theorem pyFirstTen_of_short {eid : Nat} (h : numDigits eid < 10) :
    pyFirstTen eid = eid := by
  unfold pyFirstTen
  have : numDigits eid - 10 = 0 := by omega
  simp [this]

/-! ### `List.take`, history -/

theorem save_digest_to_history_length (digest : Str) (history : List Str) :
    (save_digest_to_history digest history).length =
      min (history.length + 1) DIGEST_HISTORY_LIMIT := by
  simp [save_digest_to_history, Nat.min_comm]

theorem save_digest_to_history_head (digest : Str) (history : List Str) :
    (save_digest_to_history digest history).head? = some digest := by
  simp [save_digest_to_history, DIGEST_HISTORY_LIMIT]

theorem save_digest_to_history_full (digest : Str) (history : List Str)
    (h : history.length = DIGEST_HISTORY_LIMIT) :
    save_digest_to_history digest history = digest :: history.dropLast := by
  simp only [save_digest_to_history, DIGEST_HISTORY_LIMIT] at *
  rw [List.dropLast_eq_take, h]
  rfl

/-! ### Stage-1 fan-in: completion order does not matter -/

theorem fillStep_length (entries : List Entry) (o : Stage1Oracle)
    (acc : List (Option Str)) (i : Nat) :
    (fillStep entries o acc i).length = acc.length := by
  unfold fillStep
  split
  · cases entries[i - 1]? <;> simp
  · rfl

theorem foldl_fillStep_length (entries : List Entry) (o : Stage1Oracle)
    (order : List Nat) (acc : List (Option Str)) :
    (order.foldl (fillStep entries o) acc).length = acc.length := by
  induction order generalizing acc with
  | nil => rfl
  | cons i rest ih => rw [List.foldl_cons, ih, fillStep_length]

/-- Each slot of the fan-in array holds the block of its own article once that
article's future has completed, whatever the completion order. -/
theorem foldl_fillStep_getElem? (entries : List Entry) (o : Stage1Oracle)
    (order : List Nat) :
    ∀ (acc : List (Option Str)), acc.length = entries.length →
      ∀ j (hj : j < entries.length),
        (order.foldl (fillStep entries o) acc)[j]? =
          if j + 1 ∈ order then
            some (some (articleBlock (j + 1) (entries.get ⟨j, hj⟩) o))
          else acc[j]? := by
  induction order with
  | nil =>
    intro acc _ j _
    simp
  | cons i rest ih =>
    intro acc hlen j hj
    rw [List.foldl_cons,
      ih (fillStep entries o acc i) (by rw [fillStep_length]; exact hlen) j hj]
    by_cases hrest : j + 1 ∈ rest
    · simp [hrest, List.mem_cons]
    · by_cases hij : i = j + 1
      · subst hij
        simp only [fillStep, if_pos (by omega : 1 ≤ j + 1), Nat.add_sub_cancel,
          hrest, if_false, List.mem_cons, List.getElem?_eq_getElem hj]
        rw [List.getElem?_set_eq_of_lt _ (by omega : j < acc.length)]
        simp [List.get_eq_getElem]
      · have hmem : ¬ (j + 1 ∈ i :: rest) := by
          simp only [List.mem_cons]
          push_neg
          exact ⟨fun h => hij h.symm, hrest⟩
        simp only [hrest, if_false, hmem]
        unfold fillStep
        split
        · rename_i hi
          split
          · have hne : i - 1 ≠ j := by omega
            exact List.getElem?_set_ne hne
          · rfl
        · rfl

/-- With a covering completion order every slot is filled, and the array is
exactly the in-input-order block list. -/
theorem fillResults_covers (entries : List Entry) (o : Stage1Oracle)
    (order : List Nat) (hc : covers order entries.length) :
    fillResults entries o order =
      entries.enum.map (fun p => some (articleBlock (p.1 + 1) p.2 o)) := by
  apply List.ext_getElem?
  intro j
  by_cases hj : j < entries.length
  · unfold fillResults
    rw [foldl_fillStep_getElem? entries o order _ (by simp) j hj]
    have hm : j + 1 ∈ order := hc (j + 1) (by
      rw [List.mem_range']
      exact ⟨j, by omega, by omega⟩)
    rw [if_pos hm, List.getElem?_map, List.getElem?_enum,
      List.getElem?_eq_getElem hj]
    rfl
  · have h1 : (fillResults entries o order).length = entries.length := by
      unfold fillResults
      rw [foldl_fillStep_length]
      simp
    have h2 : (entries.enum.map
        (fun p => some (articleBlock (p.1 + 1) p.2 o))).length = entries.length := by
      simp
    rw [List.getElem?_eq_none (by omega), List.getElem?_eq_none (by omega)]

/-- The merged Stage-1 output is completion-order independent. -/
theorem summarize_eq_canonical (entries : List Entry) (o : Stage1Oracle)
    (order : List Nat) (hc : covers order entries.length) :
    summarize_articles entries o order = summarizeCanonical entries o := by
  unfold summarize_articles summarizeCanonical
  by_cases he : entries = []
  · subst he
    rfl
  · rw [if_neg he, fillResults_covers entries o order hc, List.filterMap_map]
    have hco : (id ∘ fun (p : Nat × Entry) => some (articleBlock (p.1 + 1) p.2 o))
        = (some ∘ fun (p : Nat × Entry) => articleBlock (p.1 + 1) p.2 o) := rfl
    rw [hco, List.filterMap_eq_map]

/-! ### Blankness and the digest validity gate -/

/-- A string containing a non-whitespace character does not strip to `""`. -/
theorem pyStrip_ne_nil {s : Str} {c : Char} (hc : c ∈ s)
    (hw : c.isWhitespace = false) : pyStrip s ≠ [] := by
  intro h
  unfold pyStrip at h
  rw [List.reverse_eq_nil_iff, List.dropWhile_eq_nil_iff] at h
  have h2 : ∀ x ∈ s.dropWhile Char.isWhitespace, x.isWhitespace = true := by
    intro x hx
    exact h x (List.mem_reverse.2 hx)
  have hsplit := List.takeWhile_append_dropWhile
    (p := Char.isWhitespace) (l := s)
  rw [← hsplit] at hc
  rcases List.mem_append.1 hc with h3 | h3
  · have := List.mem_takeWhile_imp h3
    rw [hw] at this
    cases this
  · have := h2 c h3
    rw [hw] at this
    cases this

/-- The in-loop gate fails exactly on blank digests and failure indicators. -/
theorem loopValid_eq_false_iff (d : Str) :
    loopValid d = false ↔ (pyStrip d = [] ∨ containsIndicator d = true) := by
  unfold loopValid
  cases hd : d with
  | nil => simp [pyStrip]
  | cons c rest =>
    simp only [List.isEmpty_cons, Bool.not_false, Bool.true_and,
      Bool.and_eq_false_iff, Bool.not_eq_false']
    constructor
    · rintro (h | h)
      · left
        exact List.isEmpty_iff.1 h
      · right
        simpa using h
    · rintro (h | h)
      · left
        exact List.isEmpty_iff.2 h
      · right
        simpa using h

/-- `generate_digest` never returns the empty string. -/
theorem generate_digest_ne_nil (entries : List Entry) (history : List Str)
    (g : GenOracle) : generate_digest entries history g ≠ [] := by
  simp only [generate_digest]
  split
  · decide
  · split
    · decide
    · split
      · decide
      · simp

/-- Every `generate_digest` result either carries a failure indicator or has
non-blank content: the sentinel strings contain `"Failed to generate digest"`
and the success path starts with the nonblank title `"# RSS 新闻摘要 - "`. -/
theorem generate_digest_ind_or_strip (entries : List Entry)
    (history : List Str) (g : GenOracle) :
    containsIndicator (generate_digest entries history g) = true ∨
      pyStrip (generate_digest entries history g) ≠ [] := by
  simp only [generate_digest]
  split
  · left; decide
  · split
    · left; decide
    · split
      · left; decide
      · right
        have hmem : '#' ∈ "# RSS 新闻摘要 - ".toList := by decide
        exact pyStrip_ne_nil
          (List.mem_append_left _ (List.mem_append_left _
            (List.mem_append_left _ hmem))) (by decide)

/-! ### Orchestrator paths -/

theorem loopValid_true_parts {d : Str} (h : loopValid d = true) :
    d.isEmpty = false ∧ (pyStrip d).isEmpty = false ∧
      containsIndicator d = false := by
  unfold loopValid at h
  simp only [Bool.and_eq_true, Bool.not_eq_true'] at h
  exact ⟨h.1.1, h.1.2, h.2⟩

/-- The commit path, written as one record: the processed-ids file is always
rewritten; the history file advances exactly when sending is enabled and the
send succeeded; the digest is handed to the sender exactly when sending is
enabled. -/
theorem commitPhase_eq (env : RunEnv) (send : Bool) (st : FileState)
    (digest : Str) :
    commitPhase env send st digest =
      { ret := digest,
        files := ⟨update_processed_ids env.now st.processed_ids
            (env.entries.map (fun e => e.id)),
          if send && env.sendOk then
            save_digest_to_history digest st.digest_history
          else st.digest_history⟩,
        sent := if send then [digest] else [] } := by
  unfold commitPhase
  cases send <;> cases hOk : env.sendOk <;> simp [hOk]

theorem finalPhase_commit (env : RunEnv) (send : Bool) (st : FileState)
    (digest err : Str) (h1 : digest.isEmpty = false)
    (h2 : containsIndicator digest = false) :
    finalPhase env send st digest err = commitPhase env send st digest := by
  unfold finalPhase
  rw [h1, h2]
  simp

theorem run_digest_process_valid1 (env : RunEnv) (send : Bool) (st : FileState)
    (hne : env.entries.isEmpty = false)
    (h : loopValid (generate_digest env.entries st.digest_history env.g1) = true) :
    run_digest_process env send st =
      commitPhase env send st
        (generate_digest env.entries st.digest_history env.g1) := by
  unfold run_digest_process
  rw [hne]
  simp only [Bool.false_eq_true, if_false, h, if_true]
  obtain ⟨h1, _, h3⟩ := loopValid_true_parts h
  exact finalPhase_commit env send st _ _ h1 h3

theorem run_digest_process_valid2 (env : RunEnv) (send : Bool) (st : FileState)
    (hne : env.entries.isEmpty = false)
    (h1 : loopValid (generate_digest env.entries st.digest_history env.g1) = false)
    (h2 : loopValid (generate_digest env.entries st.digest_history env.g2) = true) :
    run_digest_process env send st =
      commitPhase env send st
        (generate_digest env.entries st.digest_history env.g2) := by
  unfold run_digest_process
  rw [hne]
  simp only [Bool.false_eq_true, if_false, h1, h2, if_true]
  obtain ⟨hb1, _, hb3⟩ := loopValid_true_parts h2
  exact finalPhase_commit env send st _ _ hb1 hb3

/-- When both attempts fail the loop gate, the last digest must carry a
failure indicator, and the run exits through the failure branch: files
untouched, the error notice (naming the last digest as the error) sent only
when sending is enabled. -/
theorem run_digest_process_bothInvalid (env : RunEnv) (send : Bool)
    (st : FileState) (hne : env.entries.isEmpty = false)
    (h1 : loopValid (generate_digest env.entries st.digest_history env.g1) = false)
    (h2 : loopValid (generate_digest env.entries st.digest_history env.g2) = false) :
    run_digest_process env send st =
      { ret := generate_digest env.entries st.digest_history env.g2,
        files := st,
        sent := if send then
            [digestFailedNotice (generate_digest env.entries st.digest_history env.g2)]
          else [] } := by
  have hd2ne := generate_digest_ne_nil env.entries st.digest_history env.g2
  have hd2e : (generate_digest env.entries st.digest_history env.g2).isEmpty
      = false := by
    simpa [List.isEmpty_iff] using hd2ne
  have hind : containsIndicator
      (generate_digest env.entries st.digest_history env.g2) = true := by
    rcases (loopValid_eq_false_iff _).1 h2 with hstrip | hind
    · rcases generate_digest_ind_or_strip env.entries st.digest_history env.g2
        with hi | hs
      · exact hi
      · exact absurd hstrip hs
    · exact hind
  unfold run_digest_process
  rw [hne]
  simp only [Bool.false_eq_true, if_false, h1, h2]
  unfold finalPhase
  rw [hd2e, hind]
  simp

/-! ### Chunked delivery: split/accumulate invariants -/

theorem splitNLAux_flatten :
    ∀ acc s, (splitNLAux acc s).flatten = acc.reverse ++ s := by
  intro acc s
  induction acc, s using splitNLAux.induct with
  | case1 acc => simp [splitNLAux]
  | case2 acc rest ih => simp [splitNLAux, ih]
  | case3 acc rest hne ih => simp [splitNLAux, ih]
  | case4 acc c rest h1 h2 ih => simp [splitNLAux, ih]

/-- The parts of `re.split(r'(\n\n|\n)', text)` concatenate back to `text`. -/
theorem splitNL_flatten (s : Str) : (splitNL s).flatten = s := by
  unfold splitNL
  rw [splitNLAux_flatten]
  rfl

theorem forceSplit_flatten (part : Str) : (forceSplit part).flatten = part := by
  induction part using forceSplit.induct with
  | case1 => simp [forceSplit]
  | case2 part h ih =>
    rw [forceSplit, dif_neg h]
    simp only [List.flatten_cons, ih]
    exact List.take_append_drop _ _

theorem forceSplit_le (part : Str) :
    ∀ c ∈ forceSplit part, c.length ≤ TELEGRAM_LIMIT := by
  induction part using forceSplit.induct with
  | case1 => simp [forceSplit]
  | case2 part h ih =>
    rw [forceSplit, dif_neg h]
    intro c hc
    rcases List.mem_cons.1 hc with rfl | hc
    · simpa using List.length_take_le _ _
    · exact ih c hc

theorem chunkStep_flatten (st : List Str × Str) (part : Str) :
    (chunkStep st part).1.flatten ++ (chunkStep st part).2 =
      st.1.flatten ++ st.2 ++ part := by
  unfold chunkStep
  dsimp only
  split
  · simp
  · split
    · split
      · rename_i he
        have h0 : st.2 = [] := List.isEmpty_iff.1 he
        simp [List.flatten_append, forceSplit_flatten, h0]
      · simp [List.flatten_append, forceSplit_flatten]
    · split
      · rename_i he
        have h0 : st.2 = [] := List.isEmpty_iff.1 he
        simp [h0]
      · simp [List.flatten_append]

theorem chunkStep_le (st : List Str × Str) (part : Str)
    (h1 : ∀ c ∈ st.1, c.length ≤ TELEGRAM_LIMIT)
    (h2 : st.2.length ≤ TELEGRAM_LIMIT) :
    (∀ c ∈ (chunkStep st part).1, c.length ≤ TELEGRAM_LIMIT) ∧
      (chunkStep st part).2.length ≤ TELEGRAM_LIMIT := by
  have hall : ∀ c ∈ (if st.2.isEmpty then st.1 else st.1 ++ [st.2]),
      c.length ≤ TELEGRAM_LIMIT := by
    split
    · exact h1
    · intro c hc
      rcases List.mem_append.1 hc with hc | hc
      · exact h1 c hc
      · rcases List.mem_singleton.1 hc with rfl
        exact h2
  unfold chunkStep
  dsimp only
  split
  · rename_i hfit
    refine ⟨h1, ?_⟩
    show (st.2 ++ part).length ≤ TELEGRAM_LIMIT
    rw [List.length_append]
    omega
  · rename_i hnofit
    split
    · constructor
      · show ∀ c ∈ (if st.2.isEmpty then st.1 else st.1 ++ [st.2])
            ++ forceSplit part, c.length ≤ TELEGRAM_LIMIT
        intro c hc
        rcases List.mem_append.1 hc with hc | hc
        · exact hall c hc
        · exact forceSplit_le part c hc
      · show ([] : Str).length ≤ TELEGRAM_LIMIT
        simp
    · rename_i hlim
      constructor
      · exact hall
      · show part.length ≤ TELEGRAM_LIMIT
        omega

theorem foldl_chunkStep_flatten (parts : List Str) :
    ∀ st : List Str × Str,
      (parts.foldl chunkStep st).1.flatten ++ (parts.foldl chunkStep st).2 =
        st.1.flatten ++ st.2 ++ parts.flatten := by
  induction parts with
  | nil => intro st; simp
  | cons p rest ih =>
    intro st
    rw [List.foldl_cons, ih (chunkStep st p)]
    rw [chunkStep_flatten]
    simp

theorem foldl_chunkStep_le (parts : List Str) :
    ∀ st : List Str × Str,
      (∀ c ∈ st.1, c.length ≤ TELEGRAM_LIMIT) →
      st.2.length ≤ TELEGRAM_LIMIT →
      (∀ c ∈ (parts.foldl chunkStep st).1, c.length ≤ TELEGRAM_LIMIT) ∧
        (parts.foldl chunkStep st).2.length ≤ TELEGRAM_LIMIT := by
  induction parts with
  | nil => intro st h1 h2; exact ⟨h1, h2⟩
  | cons p rest ih =>
    intro st h1 h2
    rw [List.foldl_cons]
    obtain ⟨g1, g2⟩ := chunkStep_le st p h1 h2
    exact ih (chunkStep st p) g1 g2

/-- The chunks of `_send_long_message` concatenate back to the input text. -/
theorem buildChunks_flatten (processed_text : Str) :
    (buildChunks processed_text).flatten = processed_text := by
  unfold buildChunks
  dsimp only
  have h := foldl_chunkStep_flatten (splitNL processed_text) ([], [])
  rw [splitNL_flatten] at h
  simp only [List.flatten_nil, List.nil_append] at h
  split
  · rename_i he
    have h2 : ((splitNL processed_text).foldl chunkStep ([], [])).2 = [] :=
      List.isEmpty_iff.1 he
    rw [h2, List.append_nil] at h
    exact h
  · simpa using h

/-- Every chunk respects the 4096-character transport limit. -/
theorem buildChunks_le (processed_text : Str) :
    ∀ c ∈ buildChunks processed_text, c.length ≤ TELEGRAM_LIMIT := by
  unfold buildChunks
  dsimp only
  obtain ⟨g1, g2⟩ := foldl_chunkStep_le (splitNL processed_text) ([], [])
    (by simp) (by simp [TELEGRAM_LIMIT])
  split
  · exact g1
  · intro c hc
    rcases List.mem_append.1 hc with hc | hc
    · exact g1 c hc
    · rcases List.mem_singleton.1 hc with rfl
      exact g2

/-! ### Send loop: order, blank-skipping, first-failure abort -/

theorem sendLoop_nil (ok : Nat → Bool) (i : Nat) (last : Option Bool) :
    sendLoop ok i last [] = ([], last) := rfl

theorem sendLoop_cons (ok : Nat → Bool) (i : Nat) (last : Option Bool)
    (c : Str) (rest : List Str) :
    sendLoop ok i last (c :: rest) =
      if (pyStrip c).isEmpty then sendLoop ok (i + 1) last rest
      else if ok i then
        ((i :: (sendLoop ok (i + 1) (some true) rest).1),
          (sendLoop ok (i + 1) (some true) rest).2)
      else ([i], some false) := rfl

/-- Sent positions are strictly increasing and bounded below by the running
position. -/
theorem sendLoop_mono (ok : Nat → Bool) :
    ∀ (chunks : List Str) (i : Nat) (last : Option Bool),
      (sendLoop ok i last chunks).1.Pairwise (· < ·) ∧
        ∀ k ∈ (sendLoop ok i last chunks).1, i ≤ k := by
  intro chunks
  induction chunks with
  | nil => intro i last; simp [sendLoop_nil]
  | cons c rest ih =>
    intro i last
    rw [sendLoop_cons]
    split
    · obtain ⟨p, hge⟩ := ih (i + 1) last
      exact ⟨p, fun k hk => by have := hge k hk; omega⟩
    · split
      · obtain ⟨p, hge⟩ := ih (i + 1) (some true)
        constructor
        · exact List.pairwise_cons.2
            ⟨fun k hk => by have := hge k hk; omega, p⟩
        · intro k hk
          rcases List.mem_cons.1 hk with rfl | hk
          · omega
          · have := hge k hk
            omega
      · refine ⟨by simp, ?_⟩
        intro k hk
        rcases List.mem_singleton.1 hk with rfl
        omega

/-- Every sent position addresses a chunk that is non-blank after stripping. -/
theorem sendLoop_sent_nonblank (ok : Nat → Bool) :
    ∀ (chunks : List Str) (i : Nat) (last : Option Bool),
      ∀ k ∈ (sendLoop ok i last chunks).1,
        ∃ c, chunks[k - i]? = some c ∧ (pyStrip c).isEmpty = false := by
  intro chunks
  induction chunks with
  | nil => intro i last k hk; simp [sendLoop_nil] at hk
  | cons c rest ih =>
    intro i last k hk
    rw [sendLoop_cons] at hk
    split at hk
    · have hge := (sendLoop_mono ok rest (i + 1) last).2 k hk
      obtain ⟨c0, hc0, hb⟩ := ih (i + 1) last k hk
      refine ⟨c0, ?_, hb⟩
      have hki : k - i = (k - (i + 1)) + 1 := by omega
      rw [hki, List.getElem?_cons_succ]
      exact hc0
    · rename_i hblank
      split at hk
      · rcases List.mem_cons.1 hk with rfl | hk
        · refine ⟨c, ?_, by simpa using hblank⟩
          simp
        · have hge := (sendLoop_mono ok rest (i + 1) (some true)).2 k hk
          obtain ⟨c0, hc0, hb⟩ := ih (i + 1) (some true) k hk
          refine ⟨c0, ?_, hb⟩
          have hki : k - i = (k - (i + 1)) + 1 := by omega
          rw [hki, List.getElem?_cons_succ]
          exact hc0
      · rcases List.mem_singleton.1 hk with rfl
        refine ⟨c, ?_, by simpa using hblank⟩
        simp

/-- If position `j` holds the first non-blank chunk whose send fails, the
loop returns that failure, `j` is sent, and nothing after `j` is attempted. -/
theorem sendLoop_firstFail (ok : Nat → Bool) :
    ∀ (chunks : List Str) (i : Nat) (last : Option Bool) (j : Nat) (c : Str),
      i ≤ j →
      chunks[j - i]? = some c →
      (pyStrip c).isEmpty = false →
      ok j = false →
      (∀ k c', i ≤ k → k < j → chunks[k - i]? = some c' →
        (pyStrip c').isEmpty = false → ok k = true) →
      (sendLoop ok i last chunks).2 = some false ∧
        j ∈ (sendLoop ok i last chunks).1 ∧
        ∀ k ∈ (sendLoop ok i last chunks).1, k ≤ j := by
  intro chunks
  induction chunks with
  | nil =>
    intro i last j c _ hj _ _ _
    simp at hj
  | cons c0 rest ih =>
    intro i last j c hij hj hcb hokj hmin
    rw [sendLoop_cons]
    split
    · rename_i hblank
      have hne : j ≠ i := by
        intro h
        subst h
        have : j - j = 0 := by omega
        rw [this, List.getElem?_cons_zero] at hj
        cases hj
        rw [hblank] at hcb
        cases hcb
      have hij1 : i + 1 ≤ j := by omega
      have hj1 : rest[j - (i + 1)]? = some c := by
        have hki : j - i = (j - (i + 1)) + 1 := by omega
        rw [hki, List.getElem?_cons_succ] at hj
        exact hj
      refine ih (i + 1) last j c hij1 hj1 hcb hokj ?_
      intro k c' hk1 hk2 hk3 hk4
      have hki : k - i = (k - (i + 1)) + 1 := by omega
      refine hmin k c' (by omega) hk2 ?_ hk4
      rw [hki, List.getElem?_cons_succ]
      exact hk3
    · rename_i hblank
      split
      · rename_i hoki
        have hne : j ≠ i := by
          intro h
          subst h
          rw [hokj] at hoki
          cases hoki
        have hij1 : i + 1 ≤ j := by omega
        have hj1 : rest[j - (i + 1)]? = some c := by
          have hki : j - i = (j - (i + 1)) + 1 := by omega
          rw [hki, List.getElem?_cons_succ] at hj
          exact hj
        obtain ⟨r2, rmem, rle⟩ := ih (i + 1) (some true) j c hij1 hj1 hcb hokj
          (by
            intro k c' hk1 hk2 hk3 hk4
            have hki : k - i = (k - (i + 1)) + 1 := by omega
            refine hmin k c' (by omega) hk2 ?_ hk4
            rw [hki, List.getElem?_cons_succ]
            exact hk3)
        refine ⟨r2, List.mem_cons.2 (Or.inr rmem), ?_⟩
        intro k hk
        rcases List.mem_cons.1 hk with rfl | hk
        · omega
        · exact rle k hk
      · have hji : j = i := by
          by_contra hne
          have hlt : i < j := by omega
          have h0 : i - i = 0 := by omega
          have := hmin i c0 (by omega) hlt
            (by rw [h0, List.getElem?_cons_zero]) (by simpa using hblank)
          rename_i hoki
          exact hoki this
        subst hji
        exact ⟨rfl, by simp, by simp⟩

/-! ### Escaper: scanning and restoring lemmas -/

/-- The link scan passes text without `[` through unchanged (prefix form). -/
theorem subLinksAux_append (pre : Str) :
    ∀ (rest : Str) (k : Nat), '[' ∉ pre →
      subLinksAux (pre ++ rest) k =
        ((pre ++ (subLinksAux rest k).1), (subLinksAux rest k).2) := by
  induction pre with
  | nil => intro rest k _; simp
  | cons c pre ih =>
    intro rest k hmem
    have hc : ¬ c = '[' := fun h => hmem (by simp [h])
    have hpre : '[' ∉ pre := fun h => hmem (List.mem_cons.2 (Or.inr h))
    rw [List.cons_append, subLinksAux]
    · rw [ih rest k hpre]
      simp
    · exact fun h => hc h

/-- A text without `[` is left untouched by the link pass. -/
theorem subLinksAux_id (s : Str) (k : Nat) (h : '[' ∉ s) :
    subLinksAux s k = (s, []) := by
  have h0 : subLinksAux ([] : Str) k = ([], []) := by rw [subLinksAux]
  have hap := subLinksAux_append s [] k h
  rw [List.append_nil] at hap
  rw [hap, h0]
  simp

/-- The bold scan passes text without `*` through unchanged (prefix form). -/
theorem subBoldAux_append (pre : Str) :
    ∀ (rest : Str) (k : Nat), '*' ∉ pre →
      subBoldAux (pre ++ rest) k =
        ((pre ++ (subBoldAux rest k).1), (subBoldAux rest k).2) := by
  induction pre with
  | nil => intro rest k _; simp
  | cons c pre ih =>
    intro rest k hmem
    have hc : ¬ c = '*' := fun h => hmem (by simp [h])
    have hpre : '*' ∉ pre := fun h => hmem (List.mem_cons.2 (Or.inr h))
    rw [List.cons_append, subBoldAux]
    · rw [ih rest k hpre]
      simp
    · exact fun t h _ => hc h

/-- A text without `*` is left untouched by the bold pass. -/
theorem subBoldAux_id (s : Str) (k : Nat) (h : '*' ∉ s) :
    subBoldAux s k = (s, []) := by
  have h0 : subBoldAux ([] : Str) k = ([], []) := by rw [subBoldAux]
  have hap := subBoldAux_append s [] k h
  rw [List.append_nil] at hap
  rw [hap, h0]
  simp

theorem takeWhile_append_cons_false {p : Char → Bool} :
    ∀ (w : Str) (x : Char) (rest : Str), (∀ c ∈ w, p c = true) → p x = false →
      ((w ++ x :: rest).takeWhile p = w ∧
        (w ++ x :: rest).drop w.length = x :: rest) := by
  intro w x rest hall hx
  refine ⟨?_, List.drop_left w (x :: rest)⟩
  induction w with
  | nil => simp [List.takeWhile_cons, hx]
  | cons c w ih =>
    have hc : p c = true := hall c (by simp)
    rw [List.cons_append, List.takeWhile_cons, if_pos hc]
    rw [ih (fun d hd => hall d (by simp [hd]))]

/-- A clean bold span is recognized by `tryBoldContent`. -/
theorem tryBoldContent_eval (w post : Str) (hw : w ≠ []) (hsw : '*' ∉ w) :
    tryBoldContent (w ++ '*' :: '*' :: post) = some (w, post) := by
  unfold tryBoldContent
  dsimp only
  have hall : ∀ c ∈ w, (fun c => decide (c ≠ '*')) c = true := by
    intro c hc
    simp
    exact fun h => hsw (h ▸ hc)
  obtain ⟨ht, hd⟩ := takeWhile_append_cons_false w '*' ('*' :: post) hall (by simp)
  rw [ht, hd]
  rw [if_pos ⟨hw, rfl⟩]
  rfl

/-- A successful bold match at the scan position produces the placeholder and
records the content. -/
theorem subBoldAux_match {t : Str} {w after : Str} (k : Nat)
    (h : tryBoldContent t = some (w, after)) :
    subBoldAux ('*' :: '*' :: t) k =
      (placeholderBold k ++ (subBoldAux after (k + 1)).1,
        w :: (subBoldAux after (k + 1)).2) := by
  rw [subBoldAux, h]

/-- `urlScanAux` accepts a member of the single-level URL language followed by
the closing parenthesis. -/
theorem urlScanAux_of_urlOK :
    ∀ (u : Str) (depth : Bool) (rest : Str), urlOK u depth = true →
      urlScanAux (u ++ ')' :: rest) depth = some (u, rest) := by
  intro u
  induction u with
  | nil =>
    intro depth rest hok
    cases depth
    · rfl
    · simp [urlOK] at hok
  | cons c u ih =>
    intro depth rest hok
    rw [List.cons_append, urlScanAux]
    unfold urlOK at hok
    by_cases hc : c = ')'
    · subst hc
      simp only [if_pos rfl] at hok ⊢
      cases depth
      · simp at hok
      · rw [ih false rest hok]
        rfl
    · by_cases hc2 : c = '('
      · subst hc2
        simp only [if_neg (by decide : ¬ ('(' = ')')), if_pos rfl] at hok ⊢
        cases depth
        · rw [ih true rest hok]
          rfl
        · simp at hok
      · simp only [if_neg hc, if_neg hc2] at hok ⊢
        rw [ih depth rest hok]
        rfl

/-- A clean link span is recognized by `tryLinkAt`. -/
theorem tryLinkAt_eval (d u post : Str) (hd : d ≠ []) (hdd : ']' ∉ d)
    (hu : urlOK u false = true) :
    tryLinkAt (d ++ ']' :: '(' :: (u ++ ')' :: post)) = some (d, u, post) := by
  unfold tryLinkAt
  dsimp only
  have hall : ∀ c ∈ d, (fun c => decide (c ≠ ']')) c = true := by
    intro c hc
    simp
    exact fun h => hdd (h ▸ hc)
  obtain ⟨ht, hdr⟩ := takeWhile_append_cons_false d ']' ('(' :: (u ++ ')' :: post))
    hall (by simp)
  rw [ht, if_neg (by simpa using hd), hdr]
  show Option.map (fun r => (d, r.1, r.2)) (urlScanAux (u ++ ')' :: post) false)
      = some (d, u, post)
  rw [urlScanAux_of_urlOK u false post hu]
  rfl

/-- A successful link match at the scan position produces the placeholder and
records display text and URL. -/
theorem subLinksAux_match {t d u after : Str} (k : Nat)
    (h : tryLinkAt t = some (d, u, after)) :
    subLinksAux ('[' :: t) k =
      (placeholderLink k ++ (subLinksAux after (k + 1)).1,
        (d, u) :: (subLinksAux after (k + 1)).2) := by
  rw [subLinksAux, h]

theorem escapeAll_append (a b : Str) :
    escapeAll (a ++ b) = escapeAll a ++ escapeAll b := by
  unfold escapeAll
  exact List.flatMap_append ..

theorem mem_escapeAll {c : Char} {s : Str} (h : c ∈ escapeAll s) :
    c = '\\' ∨ c ∈ s := by
  unfold escapeAll at h
  rw [List.mem_flatMap] at h
  obtain ⟨a, ha, hc⟩ := h
  revert hc
  split
  · intro hc
    rcases List.mem_cons.1 hc with rfl | hc
    · exact Or.inl rfl
    · rcases List.mem_singleton.1 hc with rfl
      exact Or.inr ha
  · intro hc
    rcases List.mem_singleton.1 hc with rfl
    exact Or.inr ha

theorem isPrefixOf_append_self : ∀ (l t : Str), l.isPrefixOf (l ++ t) = true := by
  intro l t
  induction l with
  | nil => simp [List.isPrefixOf]
  | cons c rest ih => simpa [List.isPrefixOf_cons₂] using ih

/-- Python `s.replace` is the identity when the pattern head never occurs. -/
theorem replaceAll_not_mem {p : Char} {ps repl : Str} :
    ∀ s : Str, p ∉ s → replaceAll (p :: ps) repl s = s := by
  intro s
  induction s with
  | nil => intro _; rw [replaceAll]
  | cons c rest ih =>
    intro hmem
    have hc : ¬ (p = c) := fun h => hmem (by simp [h])
    rw [replaceAll, if_neg (by
      simp only [List.isPrefixOf_cons₂]
      rw [Bool.and_eq_true]
      rintro ⟨h1, -⟩
      exact hc (by simpa using h1))]
    rw [ih (fun h => hmem (List.mem_cons.2 (Or.inr h)))]

/-- Python `s.replace` on a string with exactly one occurrence of the
pattern, marked by its unique head character. -/
theorem replaceAll_single {p : Char} {ps repl : Str} :
    ∀ (a b : Str), p ∉ a → p ∉ b →
      replaceAll (p :: ps) repl (a ++ (p :: ps) ++ b) = a ++ repl ++ b := by
  intro a
  induction a with
  | nil =>
    intro b _ hb
    rw [List.nil_append, List.cons_append, replaceAll]
    rw [if_pos (by
      rw [← List.cons_append]
      exact isPrefixOf_append_self (p :: ps) b)]
    rw [← List.cons_append, List.drop_left (p :: ps) b]
    rw [replaceAll_not_mem b hb, List.nil_append]
  | cons c a ih =>
    intro b hmem hb
    have hc : ¬ (p = c) := fun h => hmem (by simp [h])
    simp only [List.cons_append]
    rw [replaceAll]
    rw [if_neg (by
      simp only [List.isPrefixOf_cons₂]
      rw [Bool.and_eq_true]
      rintro ⟨h1, -⟩
      exact hc (by simpa using h1))]
    rw [ih b (fun h => hmem (List.mem_cons.2 (Or.inr h))) hb]

theorem escapeAll_placeholderBold0 :
    escapeAll (placeholderBold 0) = placeholderBold 0 := by decide

theorem escapeAll_placeholderLink0 :
    escapeAll (placeholderLink 0) = placeholderLink 0 := by decide

theorem nul_not_mem_escapeAll {s : Str} (h : '\x00' ∉ s) :
    '\x00' ∉ escapeAll s := by
  intro hc
  rcases mem_escapeAll hc with h1 | h1
  · cases h1
  · exact h h1

/-- Escaping a content string holding one clean `**w**` span: the span
becomes `*escaped-w*` while the surrounding text is plainly escaped. -/
theorem escape_content_bold_span (pre w post : Str) (hw : w ≠ [])
    (hsp : '*' ∉ pre) (hsw : '*' ∉ w) (hspo : '*' ∉ post)
    (hlp : '[' ∉ pre) (hlw : '[' ∉ w) (hlpo : '[' ∉ post)
    (hzp : '\x00' ∉ pre) (hzpo : '\x00' ∉ post) :
    escape_markdown_v2_content (pre ++ '*' :: '*' :: (w ++ '*' :: '*' :: post)) =
      escapeAll pre ++ '*' :: (escapeAll w ++ '*' :: escapeAll post) := by
  unfold escape_markdown_v2_content
  dsimp only
  have hnol : '[' ∉ pre ++ '*' :: '*' :: (w ++ '*' :: '*' :: post) := by
    intro h
    simp only [List.mem_append, List.mem_cons] at h
    rcases h with h | h | h | h | h | h | h <;>
      first
        | exact hlp h
        | exact hlw h
        | exact hlpo h
        | exact absurd h (by decide)
  rw [subLinksAux_id _ 0 hnol]
  rw [subBoldAux_append pre _ 0 hsp]
  rw [subBoldAux_match 0 (tryBoldContent_eval w post hw hsw)]
  rw [subBoldAux_id post 1 hspo]
  dsimp only
  rw [escapeAll_append, escapeAll_append, escapeAll_placeholderBold0]
  show restoreLinks (restoreBold
    (escapeAll pre ++ (placeholderBold 0 ++ escapeAll post)) [w] 0) [] 0 = _
  unfold restoreBold restoreBold restoreLinks
  rw [← List.append_assoc]
  rw [show placeholderBold 0 =
    '\x00' :: ("BOLD".toList ++ natStr 0 ++ ['\x00']) from rfl]
  rw [replaceAll_single (escapeAll pre) (escapeAll post)
    (nul_not_mem_escapeAll hzp) (nul_not_mem_escapeAll hzpo)]
  simp

/-- Escaping a content string holding one clean `[d](u)` link (the URL may
contain one level of nested parentheses): display text is escaped, the URL
gets only backslash and `)` escaped, the rest is plainly escaped. -/
theorem escape_content_link_span (pre d u post : Str) (hdne : d ≠ [])
    (hdd : ']' ∉ d) (hu : urlOK u false = true)
    (hlp : '[' ∉ pre) (hlpo : '[' ∉ post)
    (hsp : '*' ∉ pre) (hspo : '*' ∉ post)
    (hzp : '\x00' ∉ pre) (hzpo : '\x00' ∉ post) :
    escape_markdown_v2_content
        (pre ++ '[' :: (d ++ ']' :: '(' :: (u ++ ')' :: post))) =
      escapeAll pre ++ '[' :: (escapeAll d ++ ']' :: '(' ::
        (escapeURL u ++ ')' :: escapeAll post)) := by
  unfold escape_markdown_v2_content
  dsimp only
  rw [subLinksAux_append pre _ 0 hlp]
  rw [subLinksAux_match 0 (tryLinkAt_eval d u post hdne hdd hu)]
  rw [subLinksAux_id post 1 hlpo]
  dsimp only
  have hnos : '*' ∉ pre ++ (placeholderLink 0 ++ post) := by
    simp only [List.mem_append]
    rintro (h | h | h)
    · exact hsp h
    · revert h
      decide
    · exact hspo h
  rw [subBoldAux_id _ 0 hnos]
  dsimp only
  rw [escapeAll_append, escapeAll_append, escapeAll_placeholderLink0]
  show restoreLinks
    (escapeAll pre ++ (placeholderLink 0 ++ escapeAll post)) [(d, u)] 0 = _
  unfold restoreLinks restoreLinks
  rw [← List.append_assoc]
  rw [show placeholderLink 0 =
    '\x00' :: ("LINK".toList ++ natStr 0 ++ ['\x00']) from rfl]
  rw [replaceAll_single (escapeAll pre) (escapeAll post)
    (nul_not_mem_escapeAll hzp) (nul_not_mem_escapeAll hzpo)]
  simp

/-! ### Stage-1 output is never blank for nonempty input -/

theorem intercalate_cons_exists (sep x : Str) (xs : List Str) :
    ∃ t, List.intercalate sep (x :: xs) = x ++ t := by
  cases xs with
  | nil => exact ⟨[], by simp [List.intercalate]⟩
  | cons y ys =>
    refine ⟨sep ++ List.intercalate sep (y :: ys), ?_⟩
    simp [List.intercalate]

theorem articleBlock_head (i : Nat) (e : Entry) (o : Stage1Oracle) :
    ∃ t, articleBlock i e o = '-' :: t := ⟨_, rfl⟩

/-- The canonical merged Stage-1 text of a nonempty batch starts with the
first article block, hence is non-blank. -/
theorem summarizeCanonical_head (e : Entry) (rest : List Entry)
    (o : Stage1Oracle) :
    ∃ t, summarizeCanonical (e :: rest) o = articleBlock 1 e o ++ t := by
  unfold summarizeCanonical
  rw [List.enum_cons, List.map_cons]
  exact intercalate_cons_exists _ _ _

theorem summarizeCanonical_strip_ne (entries : List Entry) (o : Stage1Oracle)
    (hne : entries ≠ []) : pyStrip (summarizeCanonical entries o) ≠ [] := by
  obtain ⟨e, rest, rfl⟩ := List.exists_cons_of_ne_nil hne
  obtain ⟨t, ht⟩ := summarizeCanonical_head e rest o
  obtain ⟨t2, ht2⟩ := articleBlock_head 1 e o
  rw [ht, ht2]
  exact pyStrip_ne_nil (c := '-') (by simp) (by decide)

/-- With a covering completion order and a nonempty batch, `generate_digest`
never exits through the Stage-1 emptiness branch. -/
theorem generate_digest_ne_stage1 (entries : List Entry) (history : List Str)
    (g : GenOracle) (hne : entries ≠ [])
    (hc : covers g.order entries.length) :
    generate_digest entries history g ≠ failGenStage1 := by
  have hmerged := summarize_eq_canonical entries g.stage1 g.order hc
  have hstrip := summarizeCanonical_strip_ne entries g.stage1 hne
  simp only [generate_digest]
  rw [hmerged]
  rw [if_neg (by
    rintro (h | h)
    · exact hstrip (by rw [h]; rfl)
    · exact hstrip h)]
  split
  · decide
  · split
    · decide
    · intro h
      have h1 := congrArg (fun l : Str => l.take 1) h
      have h2 : (['#'] : Str) = ['F'] := h1
      exact absurd h2 (by decide)

theorem strIn_of_isPrefixOf {pat s : Str} (h : pat.isPrefixOf s = true) :
    strIn pat s = true := by
  rw [strIn.eq_def, h]
  rfl

/-- `s.replace` is the identity when the pattern does not occur at all. -/
theorem replaceAll_no_occur {p : Char} {ps repl : Str} :
    ∀ s : Str, strIn (p :: ps) s = false → replaceAll (p :: ps) repl s = s := by
  intro s
  induction s with
  | nil => intro _; rw [replaceAll]
  | cons c rest ih =>
    intro hno
    rw [strIn.eq_def] at hno
    rw [Bool.or_eq_false_iff] at hno
    rw [replaceAll, if_neg (by rw [hno.1]; intro h; cases h)]
    rw [ih hno.2]

/-- Content with no links and no bold spans is escaped verbatim. -/
theorem escape_content_plain (s : Str) (hl : '[' ∉ s) (hs : '*' ∉ s) :
    escape_markdown_v2_content s = escapeAll s := by
  unfold escape_markdown_v2_content
  dsimp only
  rw [subLinksAux_id s 0 hl]
  dsimp only
  rw [subBoldAux_id s 0 hs]
  rfl

/-! ## Claim theorems -/

/-- C3: For every input sequence and every completion order of the worker
futures that delivers each future (as `as_completed` does), the merged
Stage-1 output lists the article blocks in original input order, block `i`
being `articleBlock i` of entry `i` — which carries that entry's source,
link, and title in its header; results land in the pre-sized slot array at
`original_index - 1`. -/
theorem C3_order_preservation (entries : List Entry) (o : Stage1Oracle)
    (order : List Nat) (hc : covers order entries.length) :
    summarize_articles entries o order =
      List.intercalate "\n\n".toList
        (entries.enum.map (fun p => articleBlock (p.1 + 1) p.2 o)) := by
  rw [summarize_eq_canonical entries o order hc]
  rfl

/-- Witness for C3 at two concrete entries with the workers completing in
reversed order. -/
theorem C3_witness :
    summarize_articles [entryA, entryB] oracleGood [2, 1] =
      List.intercalate "\n\n".toList
        (([entryA, entryB].enum).map
          (fun p => articleBlock (p.1 + 1) p.2 oracleGood)) :=
  C3_order_preservation [entryA, entryB] oracleGood [2, 1] (by unfold covers; decide)

/-- C4: The per-item worker makes at most 2 attempts — a service error
(`none`) or a blank response is a failed attempt; failure then success
yields the attempt-2 summary; two failures yield the empty summary without
affecting anything else — an article's block depends only on that article's
own two responses. -/
theorem C4_per_item_retry (a1 a2 : Option Str) :
    (attemptResult none = none) ∧
    (∀ s : Str, pyStrip s = [] → attemptResult (some s) = none) ∧
    (∀ s : Str, attemptResult a1 = none → attemptResult a2 = some s →
      workerSummary a1 a2 = s) ∧
    (attemptResult a1 = none → attemptResult a2 = none →
      workerSummary a1 a2 = []) ∧
    (∀ (i : Nat) (e : Entry) (o o2 : Stage1Oracle),
      o i 1 = o2 i 1 → o i 2 = o2 i 2 → articleBlock i e o = articleBlock i e o2) := by
  refine ⟨rfl, ?_, ?_, ?_, ?_⟩
  · intro str h
    simp [attemptResult, h]
  · intro str h1 h2
    unfold workerSummary
    rw [h1, h2]
  · intro h1 h2
    unfold workerSummary
    rw [h1, h2]
  · intro i e o o2 h1 h2
    unfold articleBlock workerSummary
    rw [h1, h2]

/-- Witness for C4: first attempt raises, second answers `" Late point. "`;
the worker returns the stripped second summary; two raises yield `""`. -/
theorem C4_witness :
    workerSummary (oracleRetry 1 1) (oracleRetry 1 2) = "Late point.".toList ∧
    workerSummary none none = [] := by
  constructor
  · exact (C4_per_item_retry (oracleRetry 1 1) (oracleRetry 1 2)).2.2.1
      "Late point.".toList (by decide) (by decide)
  · exact (C4_per_item_retry none none).2.2.2.1 rfl rfl

/-- C5: after every tracker update, the stored ids are exactly the union of
the previous and the new ids restricted to those whose leading-10-digit
timestamp is at least `now - 48h`; in-window ids are retained, older ones
are absent. -/
theorem C5_tracker_eviction (now : Nat) (existing entry_ids : List Nat)
    (eid : Nat) :
    eid ∈ update_processed_ids now existing entry_ids ↔
      ((eid ∈ existing ∨ eid ∈ entry_ids) ∧
        now - 48 * 3600 ≤ pyFirstTen eid) :=
  mem_update_processed_ids

/-- C6: saving a digest to a history of length `n` yields length
`min (n + 1) 10` with the new digest first; the store never exceeds 10, and
inserting an 11th entry drops exactly the oldest. -/
theorem C6_history_bound (digest : Str) (history : List Str) :
    (save_digest_to_history digest history).length =
        min (history.length + 1) 10 ∧
    (save_digest_to_history digest history).head? = some digest ∧
    (save_digest_to_history digest history).length ≤ 10 ∧
    (history.length = 10 →
      save_digest_to_history digest history = digest :: history.dropLast) := by
  refine ⟨save_digest_to_history_length digest history, ?_, ?_, ?_⟩
  · exact save_digest_to_history_head digest history
  · rw [save_digest_to_history_length digest history]
    show min (history.length + 1) 10 ≤ 10
    omega
  · intro h
    exact save_digest_to_history_full digest history h

/-- Witness for C6 on a full 10-entry history. -/
theorem C6_witness :
    save_digest_to_history "new".toList
        ["a".toList, "b".toList, "c".toList, "d".toList, "e".toList,
         "f".toList, "g".toList, "h".toList, "i".toList, "j".toList] =
      "new".toList :: ["a".toList, "b".toList, "c".toList, "d".toList,
        "e".toList, "f".toList, "g".toList, "h".toList, "i".toList] := by
  have h := (C6_history_bound "new".toList
    ["a".toList, "b".toList, "c".toList, "d".toList, "e".toList,
     "f".toList, "g".toList, "h".toList, "i".toList, "j".toList]).2.2.2
    (by decide)
  rw [h]
  decide

/-- C9: for a nonempty batch (and any real completion order), the merged
Stage-1 text lists one block per item — markers and header included even
when the summary is empty — and does not strip to `""`, so
`generate_digest` can never exit with the Stage-1 failure sentinel. -/
theorem C9_stage1_nonblank (entries : List Entry) (history : List Str)
    (g : GenOracle) (hne : entries ≠ [])
    (hc : covers g.order entries.length) :
    summarize_articles entries g.stage1 g.order =
      List.intercalate "\n\n".toList
        (entries.enum.map (fun p => articleBlock (p.1 + 1) p.2 g.stage1)) ∧
    pyStrip (summarize_articles entries g.stage1 g.order) ≠ [] ∧
    generate_digest entries history g ≠ failGenStage1 := by
  have heq := summarize_eq_canonical entries g.stage1 g.order hc
  refine ⟨by rw [heq]; rfl, ?_, ?_⟩
  · rw [heq]
    exact summarizeCanonical_strip_ne entries g.stage1 hne
  · exact generate_digest_ne_stage1 entries history g hne hc

/-- Witness for C9: one entry whose Stage-2 call raises — the run fails, but
not through the Stage-1 branch. -/
theorem C9_witness :
    pyStrip (summarize_articles [entryA] genBad.stage1 genBad.order) ≠ [] ∧
    generate_digest [entryA] [] genBad ≠ failGenStage1 := by
  have h := C9_stage1_nonblank [entryA] [] genBad (by decide) (by unfold covers; decide)
  exact ⟨h.2.1, h.2.2⟩

/-- C10: an id with fewer than 10 decimal digits is its own 10-digit prefix,
and since any present-day cutoff exceeds it, every tracker update evicts
it. -/
theorem C10_short_ids_never_persist (now : Nat)
    (existing entry_ids : List Nat) (eid : Nat)
    (hshort : numDigits eid < 10)
    (hnow : 10 ^ 9 + 48 * 3600 ≤ now) :
    pyFirstTen eid = eid ∧
      eid ∉ update_processed_ids now existing entry_ids := by
  have h1 := pyFirstTen_of_short hshort
  refine ⟨h1, ?_⟩
  intro hmem
  rw [mem_update_processed_ids, h1] at hmem
  have h2 : eid < 10 ^ 9 := lt_pow_of_numDigits_le eid 9 (by omega)
  have hp : (10 : Nat) ^ 9 = 1000000000 := by norm_num
  rw [hp] at h2 hnow
  omega

/-- Witness for C10: the 1-digit id 5 is evicted even though it was just
added. -/
theorem C10_witness :
    pyFirstTen 5 = 5 ∧
      5 ∉ update_processed_ids 1760227200 [1760000000009] [5] := by
  refine C10_short_ids_never_persist 1760227200 [1760000000009] [5] 5 ?_ (by norm_num)
  rw [numDigits]
  norm_num

/-- C1: on a nonempty filtered batch, (a) the retry gate rejects exactly the
blank digests and those carrying a failure indicator, (b) a valid first
attempt ends the retry loop — the run is independent of the second-attempt
oracle, and (c) when both attempts are invalid the run returns the last
failure text, leaves both files untouched, and (only when sending is
enabled) emits one best-effort error notice naming that failure text. -/
theorem C1_validity_gate_and_failure_exit (env : RunEnv) (send : Bool)
    (st : FileState) (hne : env.entries ≠ []) :
    (∀ d : Str, loopValid d = false ↔
      (pyStrip d = [] ∨ containsIndicator d = true)) ∧
    (loopValid (generate_digest env.entries st.digest_history env.g1) = true →
      ∀ g2' : GenOracle, run_digest_process env send st =
        run_digest_process { env with g2 := g2' } send st) ∧
    (loopValid (generate_digest env.entries st.digest_history env.g1) = false →
     loopValid (generate_digest env.entries st.digest_history env.g2) = false →
      run_digest_process env send st =
        { ret := generate_digest env.entries st.digest_history env.g2,
          files := st,
          sent := if send then
              [digestFailedNotice
                (generate_digest env.entries st.digest_history env.g2)]
            else [] }) := by
  have hne' : env.entries.isEmpty = false := by
    simpa [List.isEmpty_iff] using hne
  refine ⟨loopValid_eq_false_iff, ?_, ?_⟩
  · intro h g2'
    rw [run_digest_process_valid1 env send st hne' h,
      run_digest_process_valid1 { env with g2 := g2' } send st hne' h]
    rfl
  · intro h1 h2
    exact run_digest_process_bothInvalid env send st hne' h1 h2

/-- Witness for C1: a run whose Stage-2 call raises on both attempts fails,
keeps both files, and sends one error notice. -/
theorem C1_witness :
    run_digest_process envC1 true stW =
      { ret := generate_digest envC1.entries stW.digest_history envC1.g2,
        files := stW,
        sent := [digestFailedNotice
          (generate_digest envC1.entries stW.digest_history envC1.g2)] } :=
  (C1_validity_gate_and_failure_exit envC1 true stW (by decide)).2.2
    (by decide) (by decide)

/-- C2: whenever an attempt passes the retry gate, the run rewrites the
processed-ids file with all fetched entry ids independently of delivery;
the digest is appended to history exactly when sending is enabled and the
send succeeded; a disabled or failed send leaves history unchanged while
the processed-ids update stands. -/
theorem C2_commit_before_deliver (env : RunEnv) (send : Bool) (st : FileState)
    (hne : env.entries ≠ []) :
    (loopValid (generate_digest env.entries st.digest_history env.g1) = true →
      run_digest_process env send st =
        { ret := generate_digest env.entries st.digest_history env.g1,
          files := ⟨update_processed_ids env.now st.processed_ids
              (env.entries.map (fun e => e.id)),
            if send && env.sendOk then
              save_digest_to_history
                (generate_digest env.entries st.digest_history env.g1)
                st.digest_history
            else st.digest_history⟩,
          sent := if send then
              [generate_digest env.entries st.digest_history env.g1]
            else [] }) ∧
    (loopValid (generate_digest env.entries st.digest_history env.g1) = false →
     loopValid (generate_digest env.entries st.digest_history env.g2) = true →
      run_digest_process env send st =
        { ret := generate_digest env.entries st.digest_history env.g2,
          files := ⟨update_processed_ids env.now st.processed_ids
              (env.entries.map (fun e => e.id)),
            if send && env.sendOk then
              save_digest_to_history
                (generate_digest env.entries st.digest_history env.g2)
                st.digest_history
            else st.digest_history⟩,
          sent := if send then
              [generate_digest env.entries st.digest_history env.g2]
            else [] }) := by
  have hne' : env.entries.isEmpty = false := by
    simpa [List.isEmpty_iff] using hne
  constructor
  · intro h
    rw [run_digest_process_valid1 env send st hne' h, commitPhase_eq]
  · intro h1 h2
    rw [run_digest_process_valid2 env send st hne' h1 h2, commitPhase_eq]

/-- Witness for C2: a valid first attempt with sending enabled and a
successful send — ids are committed and history advances. -/
theorem C2_witness :
    run_digest_process envC2 true stW =
      { ret := generate_digest envC2.entries stW.digest_history envC2.g1,
        files := ⟨update_processed_ids envC2.now stW.processed_ids
            (envC2.entries.map (fun e => e.id)),
          if true && envC2.sendOk then
            save_digest_to_history
              (generate_digest envC2.entries stW.digest_history envC2.g1)
              stW.digest_history
          else stW.digest_history⟩,
        sent := [generate_digest envC2.entries stW.digest_history envC2.g1] } :=
  (C2_commit_before_deliver envC2 true stW (by decide)).1 (by decide)

/-- C7: `_send_long_message` splits the processed text into chunks that each
respect the 4096 limit and concatenate back to the exact input; chunk
positions are sent strictly in increasing order; every sent position holds a
chunk that is non-blank after stripping (blank chunks are skipped); and if
position `j` holds the first non-blank chunk whose send fails, the returned
result is that failure, `j` was attempted, and no later chunk was. -/
theorem C7_chunking_and_ordered_sends (processed_text : Str)
    (ok : Nat → Bool) :
    ((buildChunks processed_text).flatten = processed_text) ∧
    (∀ c ∈ buildChunks processed_text, c.length ≤ 4096) ∧
    ((send_long_message ok processed_text).1.Pairwise (· < ·)) ∧
    (∀ k ∈ (send_long_message ok processed_text).1,
      ∃ c, (buildChunks processed_text)[k]? = some c ∧
        (pyStrip c).isEmpty = false) ∧
    (∀ (j : Nat) (c : Str),
      (buildChunks processed_text)[j]? = some c →
      (pyStrip c).isEmpty = false →
      ok j = false →
      (∀ k c2, k < j → (buildChunks processed_text)[k]? = some c2 →
        (pyStrip c2).isEmpty = false → ok k = true) →
      (send_long_message ok processed_text).2 = false ∧
        j ∈ (send_long_message ok processed_text).1 ∧
        ∀ k ∈ (send_long_message ok processed_text).1, k ≤ j) := by
  refine ⟨buildChunks_flatten processed_text, buildChunks_le processed_text,
    ?_, ?_, ?_⟩
  · exact (sendLoop_mono ok (buildChunks processed_text) 0 none).1
  · intro k hk
    obtain ⟨c, hc, hb⟩ :=
      sendLoop_sent_nonblank ok (buildChunks processed_text) 0 none k hk
    rw [Nat.sub_zero] at hc
    exact ⟨c, hc, hb⟩
  · intro j c hj hb hok hmin
    obtain ⟨hres, hjmem, hle⟩ := sendLoop_firstFail ok
      (buildChunks processed_text) 0 none j c (Nat.zero_le j)
      (by rw [Nat.sub_zero]; exact hj) hb hok
      (by
        intro k c2 _ hk2 hk3 hk4
        exact hmin k c2 hk2 (by rw [Nat.sub_zero] at hk3; exact hk3) hk4)
    refine ⟨?_, hjmem, hle⟩
    unfold send_long_message
    dsimp only
    rw [hres]
    rfl

/-- Witness for C7: a single-chunk text whose only send fails — the failure
is returned and position 0 was the only attempt. -/
theorem C7_witness :
    (send_long_message (fun _ => false) "Hello".toList).2 = false ∧
      0 ∈ (send_long_message (fun _ => false) "Hello".toList).1 ∧
      ∀ k ∈ (send_long_message (fun _ => false) "Hello".toList).1, k ≤ 0 :=
  (C7_chunking_and_ordered_sends "Hello".toList (fun _ => false)).2.2.2.2
    0 "Hello".toList (by decide) (by decide) rfl
    (fun k c2 hk _ _ => absurd hk (Nat.not_lt_zero k))

/-! ### Line-prefix exclusivity for the escaper -/

theorem not_hash_of_subtitle {l : Str}
    (h : ['#', '#', ' '].isPrefixOf l = true) :
    ['#', ' '].isPrefixOf l = false := by
  match l with
  | [] => simp [List.isPrefixOf] at h
  | [c] =>
    simp only [List.isPrefixOf_cons₂, List.isPrefixOf, Bool.and_eq_true] at h
    exact absurd h.2 (by simp [List.isPrefixOf])
  | c :: d :: rest =>
    simp only [List.isPrefixOf_cons₂, Bool.and_eq_true, beq_iff_eq] at h
    obtain ⟨rfl, rfl, -⟩ := h
    simp [List.isPrefixOf_cons₂]

theorem not_heads_of_bullet {l : Str}
    (h : ['-', ' '].isPrefixOf l = true) :
    ['#', ' '].isPrefixOf l = false ∧ ['#', '#', ' '].isPrefixOf l = false := by
  match l with
  | [] => simp [List.isPrefixOf] at h
  | c :: rest =>
    simp only [List.isPrefixOf_cons₂, Bool.and_eq_true, beq_iff_eq] at h
    obtain ⟨rfl, -⟩ := h
    constructor <;> simp [List.isPrefixOf_cons₂]

/-- C8: the escaper maps `# `/`## ` lines to escaped content wrapped in
single bold markers, `- ` lines to an escaped dash plus escaped content, any
other non-blank line to escaped plain text, blank lines to blank lines; a
reserved character is escaped exactly by prefixing a backslash; within
content, a clean `**w**` span becomes `*escaped-w*` and a clean `[d](u)`
link (one level of nested parentheses allowed in `u`) keeps its escaped
display text and a URL in which only backslash and `)` are escaped. -/
theorem C8_markup_escaper :
    (∀ text : Str, process_markdown_structure_and_escape text =
      List.intercalate ['\n'] (((pyStrip text).splitOn '\n').map processLine)) ∧
    (∀ line : Str,
      ("# ".toList.isPrefixOf (pyStrip line) = true →
        processLine line =
          '*' :: (escape_markdown_v2_content ((pyStrip line).drop 2) ++ ['*'])) ∧
      ("## ".toList.isPrefixOf (pyStrip line) = true →
        processLine line =
          '*' :: (escape_markdown_v2_content ((pyStrip line).drop 3) ++ ['*'])) ∧
      ("- ".toList.isPrefixOf (pyStrip line) = true →
        processLine line =
          '\\' :: '-' :: ' ' :: escape_markdown_v2_content ((pyStrip line).drop 2)) ∧
      ("# ".toList.isPrefixOf (pyStrip line) = false →
        "## ".toList.isPrefixOf (pyStrip line) = false →
        "- ".toList.isPrefixOf (pyStrip line) = false →
        pyStrip line ≠ [] →
        processLine line = escape_markdown_v2_content (pyStrip line)) ∧
      (pyStrip line = [] → processLine line = [])) ∧
    (∀ c : Char, escapeAll [c] =
      if c ∈ escapeChars then ['\\', c] else [c]) ∧
    (∀ s : Str, '[' ∉ s → '*' ∉ s →
      escape_markdown_v2_content s = escapeAll s) ∧
    (∀ pre w post : Str, w ≠ [] →
      '*' ∉ pre → '*' ∉ w → '*' ∉ post →
      '[' ∉ pre → '[' ∉ w → '[' ∉ post →
      '\x00' ∉ pre → '\x00' ∉ post →
      escape_markdown_v2_content (pre ++ '*' :: '*' :: (w ++ '*' :: '*' :: post)) =
        escapeAll pre ++ '*' :: (escapeAll w ++ '*' :: escapeAll post)) ∧
    (∀ pre d u post : Str, d ≠ [] → ']' ∉ d → urlOK u false = true →
      '[' ∉ pre → '[' ∉ post → '*' ∉ pre → '*' ∉ post →
      '\x00' ∉ pre → '\x00' ∉ post →
      escape_markdown_v2_content
          (pre ++ '[' :: (d ++ ']' :: '(' :: (u ++ ')' :: post))) =
        escapeAll pre ++ '[' :: (escapeAll d ++ ']' :: '(' ::
          (escapeURL u ++ ')' :: escapeAll post))) := by
  refine ⟨fun _ => rfl, ?_, ?_, escape_content_plain,
    escape_content_bold_span, escape_content_link_span⟩
  · intro line
    refine ⟨?_, ?_, ?_, ?_, ?_⟩
    · intro h1
      unfold processLine
      rw [if_pos h1]
    · intro h2
      have h1 : "# ".toList.isPrefixOf (pyStrip line) = false :=
        not_hash_of_subtitle h2
      unfold processLine
      rw [if_neg (by rw [h1]; intro hx; cases hx), if_pos h2]
    · intro h3
      have h1 : "# ".toList.isPrefixOf (pyStrip line) = false :=
        (not_heads_of_bullet h3).1
      have h2 : "## ".toList.isPrefixOf (pyStrip line) = false :=
        (not_heads_of_bullet h3).2
      unfold processLine
      rw [if_neg (by rw [h1]; intro hx; cases hx),
        if_neg (by rw [h2]; intro hx; cases hx), if_pos h3]
    · intro h1 h2 h3 hne
      unfold processLine
      rw [if_neg (by rw [h1]; intro hx; cases hx),
        if_neg (by rw [h2]; intro hx; cases hx),
        if_neg (by rw [h3]; intro hx; cases hx), if_pos hne]
    · intro hblank
      unfold processLine
      rw [hblank]
      rfl
  · intro c
    unfold escapeAll
    simp [List.flatMap]

/-- Witness for C8: a title line, a bold span beside plain text, and a link
with a nested-parenthesis URL. -/
theorem C8_witness :
    processLine "# Title".toList = "*Title*".toList ∧
    escape_markdown_v2_content "a **Acme** b".toList = "a *Acme* b".toList ∧
    escape_markdown_v2_content "[more](http://x.com/(y))".toList =
      '[' :: (escapeAll "more".toList ++ ']' :: '(' ::
        (escapeURL "http://x.com/(y)".toList ++ ')' :: escapeAll [])) := by
  refine ⟨?_, ?_, ?_⟩
  · have h1 := (C8_markup_escaper.2.1 "# Title".toList).1 (by decide)
    have h2 := C8_markup_escaper.2.2.2.1
      ((pyStrip "# Title".toList).drop 2) (by decide) (by decide)
    rw [h1, h2]
    decide
  · have h := C8_markup_escaper.2.2.2.2.1 "a ".toList "Acme".toList " b".toList
      (by decide) (by decide) (by decide) (by decide) (by decide) (by decide)
      (by decide) (by decide) (by decide)
    exact h.trans (by decide)
  · have h := C8_markup_escaper.2.2.2.2.2 ([] : Str) "more".toList
      "http://x.com/(y)".toList ([] : Str)
      (by decide) (by decide) (by decide) (by decide) (by decide) (by decide)
      (by decide) (by decide) (by decide)
    exact h

end RSSDigest